import Mathlib

/-!
Verification of the core scheduling logic of the Volunteer Scheduler
(src/app.py): cohort building, date-keyed rotation, per-slot pool merging
and sorting, distribution over 30 counters with reserves, rendering, and
the exact-token volunteer lookup.

The Python source is shallowly embedded below.  Machine-level concerns do
not arise: all quantities are small non-negative integers (volunteer ids,
counts, day numbers), modelled as Nat; the rotation argument is modelled
as Int where Python slice semantics for negative indices matter.
-/

namespace VolunteerScheduler

/-- A volunteer record, as built in app.py line 40:
    the dict with fields id_str = f"V-{i}" and id_num = i. -/
structure Volunteer where
  id_str : String
  id_num : Nat
deriving DecidableEq, Repr

/-- Builds the volunteer dict for number i, as app.py line 40 does for each
    element of the master list. -/
def mkVolunteer (i : Nat) : Volunteer :=
  { id_str := "V-" ++ Nat.repr i, id_num := i }

/-- app.py line 40: master_list = [{id_str, id_num} for i in range(1, total_ppl+1)]. -/
def master_list (total_ppl : Nat) : List Volunteer :=
  (List.range total_ppl).map (fun i => mkVolunteer (i + 1))

/-- app.py line 43: chunk = math.ceil(total_ppl / 4).  For a non-negative
    integer argument Python's true division followed by ceil is exactly
    ceiling division, i.e. (total_ppl + 3) / 4 in Nat arithmetic. -/
def chunkSize (total_ppl : Nat) : Nat := (total_ppl + 3) / 4

/-- app.py lines 44-49: the four cohorts, as Python slices of the master
    list.  A Python slice xs[a:b] with 0 <= a <= b is drop a then take (b-a);
    xs[a:] is drop a. -/
def groups (total_ppl : Nat) : List (List Volunteer) :=
  let ml := master_list total_ppl
  let chunk := chunkSize total_ppl
  [ ml.take chunk,
    (ml.drop chunk).take chunk,
    (ml.drop (chunk * 2)).take chunk,
    ml.drop (chunk * 3) ]

/-- The start position denoted by an (possibly negative or out-of-range)
    integer index r for a Python slice of a list of length len:
    negative indices count from the end and are clamped at 0, positive
    ones are clamped at len.  Models Python slicing, which app.py line 53
    applies to the 4-element group list. -/
def pyIndex (r : Int) (len : Nat) : Nat :=
  if r < 0 then len - min len (-r).toNat else min r.toNat len

/-- app.py line 53: rotated_groups = groups[rot_idx:] + groups[:rot_idx],
    with Python slice semantics for arbitrary integer rot_idx. -/
def rotated_groups (total_ppl : Nat) (rot_idx : Int) : List (List Volunteer) :=
  let g := groups total_ppl
  g.drop (pyIndex rot_idx g.length) ++ g.take (pyIndex rot_idx g.length)

/-- app.py lines 37-64 (generate_schedule): returns the cohort_map dict
    sending keys '1'..'4' to rotated_groups[0..3].  The dict lookup is
    modelled as a function on Char; a key outside '1'..'4' (never used by
    the program) is sent to the empty list. -/
def generate_schedule (total_ppl : Nat) (rot_idx : Int) : Char → List Volunteer :=
  let rg := rotated_groups total_ppl rot_idx
  fun k =>
    if k = '1' then rg.getD 0 []
    else if k = '2' then rg.getD 1 []
    else if k = '3' then rg.getD 2 []
    else if k = '4' then rg.getD 3 []
    else []

/-- app.py lines 71-85: the static 12-entry shift pattern
    (time label, active group keys, people needed per counter). -/
def schedule_pattern : List (String × List Char × Nat) :=
  [ ("08:00 - 10:00 (Peak)", ['1', '2'], 4),
    ("10:00 - 12:00 (Peak)", ['3', '4'], 4),
    ("12:00 - 14:00 (Peak)", ['1', '2'], 4),
    ("14:00 - 16:00 (Peak)", ['3', '4'], 4),
    ("16:00 - 18:00 (Off)",  ['1'],      2),
    ("18:00 - 20:00 (Off)",  ['2'],      2),
    ("20:00 - 22:00 (Off)",  ['3'],      2),
    ("22:00 - 00:00 (Off)",  ['4'],      2),
    ("00:00 - 02:00 (Off)",  ['1'],      2),
    ("02:00 - 04:00 (Off)",  ['2'],      2),
    ("04:00 - 06:00 (Off)",  ['3'],      2),
    ("06:00 - 08:00 (Off)",  ['4'],      2) ]

/-- app.py line 90: the fixed number of counters. -/
def counters : Nat := 30

/-- app.py lines 101-107 for one pattern entry: merge the cohorts of the
    active keys in listed order, then sort ascending by id_num.
    Python's list.sort is a stable sort; List.mergeSort with the same
    key order models it. -/
def slotPool (total_ppl : Nat) (rot_idx : Int) (active_keys : List Char) : List Volunteer :=
  let pool := active_keys.flatMap (fun k => generate_schedule total_ppl rot_idx k)
  pool.mergeSort (fun a b => decide (a.id_num ≤ b.id_num))

/-- app.py lines 111-126, the distribution loop of one time slot: starting
    from current_idx = 0, each of the given number of counters receives the
    slice pool[current_idx : current_idx + req] and current_idx advances by
    req.  The fold returns the list of per-counter slices together with the
    final current_idx. -/
def distributeLoop (pool : List Volunteer) (req numCounters : Nat) :
    List (List Volunteer) × Nat :=
  (List.range numCounters).foldl
    (fun s _ => (s.1 ++ [(pool.drop s.2).take req], s.2 + req))
    ([], 0)

/-- The per-counter slices of one time slot (app.py line 115). -/
def counterSlices (pool : List Volunteer) (req numCounters : Nat) :
    List (List Volunteer) :=
  (distributeLoop pool req numCounters).1

/-- app.py line 129: leftovers = pool[current_idx:] after the loop. -/
def leftovers (pool : List Volunteer) (req numCounters : Nat) : List Volunteer :=
  pool.drop (distributeLoop pool req numCounters).2

/-- Modelled from the Python standard library: the string ", ".join(ss),
    at the character-list level: the pieces with the two-character
    separator interspersed, flattened. -/
def joinCS (ts : List (List Char)) : List Char :=
  (ts.intersperse [',', ' ']).flatten

/-- str.join with separator ", " on Strings (app.py lines 118 and 131). -/
def pyJoinCS (ss : List String) : String :=
  String.mk (joinCS (ss.map String.data))

/-- app.py lines 118-121: a slice is rendered by comma-joining the display
    ids, except that an empty slice renders as the explicit marker. -/
def names_str (assigned_ppl : List Volunteer) : String :=
  if assigned_ppl.isEmpty then "⚠️ EMPTY"
  else pyJoinCS (assigned_ppl.map Volunteer.id_str)

/-- The rendered cell of one (counter, time slot) pair:
    assignments[i][time_slot] after the loop of app.py lines 113-126. -/
def cell (total_ppl : Nat) (rot_idx : Int) (active_keys : List Char)
    (req i : Nat) : String :=
  names_str ((counterSlices (slotPool total_ppl rot_idx active_keys) req counters).getD i [])

/-- app.py lines 128-132: one reserves-log entry per time slot whose
    leftover list is non-empty, pairing the time label with the
    comma-joined leftover ids, in pattern order. -/
def reserves_log (total_ppl : Nat) (rot_idx : Int) : List (String × String) :=
  schedule_pattern.filterMap (fun e =>
    let lo := leftovers (slotPool total_ppl rot_idx e.2.1) e.2.2 counters
    if lo.isEmpty then none
    else some (e.1, pyJoinCS (lo.map Volunteer.id_str)))

/-- app.py lines 134-140: one table row per counter: the counter label
    together with, per time slot in pattern order, the rendered cell. -/
def table_row (total_ppl : Nat) (rot_idx : Int) (i : Nat) :
    String × List (String × String) :=
  ("Counter " ++ Nat.repr (i + 1),
   schedule_pattern.map (fun e =>
     (e.1, cell total_ppl rot_idx e.2.1 e.2.2 i)))

/-- The full assembled table, rows in counter-index order. -/
def final_table (total_ppl : Nat) (rot_idx : Int) :
    List (String × List (String × String)) :=
  (List.range counters).map (fun i => table_row total_ppl rot_idx i)

/-- Modelled from the Python standard library: str.split(", ") as used in
    app.py lines 176 and 181.  Scans left to right; every occurrence of the
    two-character separator ", " ends the current (possibly empty) piece.
    The accumulator holds the piece being read. -/
def splitCS : List Char → List Char → List (List Char)
  | acc, [] => [acc]
  | acc, [c] => [acc ++ [c]]
  | acc, c :: c2 :: rest =>
    if c = ',' ∧ c2 = ' ' then acc :: splitCS [] rest
    else splitCS (acc ++ [c]) (c2 :: rest)

/-- str.split(", ") on a String. -/
def pySplitCS (s : String) : List String :=
  (splitCS [] s.data).map (fun cs => String.mk cs)

/-- app.py line 166: keep only the digit characters of the query. -/
def extractDigits (s : String) : List Char :=
  s.data.filter Char.isDigit

/-- Modelled from the Python standard library: int() on a non-empty digit
    string (app.py line 168), i.e. decimal value, leading zeros ignored. -/
def parseDecimal (ds : List Char) : Nat :=
  ds.foldl (fun n c => n * 10 + (c.toNat - '0'.toNat)) 0

/-- app.py lines 164-182: the search result list for a target display id.
    Main-table matches (Time, Counter label, Counter Duty) in row-major
    order come first, then reserve matches (Time, Reserve Area, Standby);
    a cell matches iff the target equals one of the pieces of its
    ", "-split. -/
def found (total_ppl : Nat) (rot_idx : Int) (target : String) :
    List (String × String × String) :=
  ((final_table total_ppl rot_idx).flatMap (fun row =>
    row.2.filterMap (fun c =>
      if target ∈ pySplitCS c.2 then some (c.1, row.1, "Counter Duty") else none)))
  ++ (reserves_log total_ppl rot_idx).filterMap (fun item =>
      if target ∈ pySplitCS item.2 then some (item.1, "Reserve Area", "Standby") else none)

/-- app.py lines 166-168: the target display id built from a query, when
    the query contains at least one digit. -/
def searchTarget (q : String) : Option String :=
  if (extractDigits q).isEmpty then none
  else some ("V-" ++ Nat.repr (parseDecimal (extractDigits q)))

/-! ### Calendar model

app.py lines 24-25 read the rotation index off the selected date:
rotation_index = selected_date.timetuple().tm_yday % 4.  The day-of-year
computation lives in the Python standard library (datetime), not in the
repository, so the proleptic Gregorian calendar it implements is modelled
here. -/

/-- Modelled from the Python standard library (datetime): Gregorian leap
    year rule. -/
def isLeap (y : Nat) : Bool :=
  (y % 4 = 0 && !(y % 100 = 0)) || (y % 400 = 0)

/-- Modelled from the Python standard library (datetime): days in month m
    (1-12) of a year with the given leap flag. -/
def daysInMonth (leap : Bool) (m : Nat) : Nat :=
  if m = 2 then (if leap then 29 else 28)
  else if m = 4 ∨ m = 6 ∨ m = 9 ∨ m = 11 then 30
  else 31

/-- A calendar date. -/
structure Date where
  year : Nat
  month : Nat
  day : Nat
deriving DecidableEq, Repr

/-- A real calendar date: month 1-12, day within the month. -/
def ValidDate (d : Date) : Prop :=
  1 ≤ d.month ∧ d.month ≤ 12 ∧ 1 ≤ d.day ∧ d.day ≤ daysInMonth (isLeap d.year) d.month

instance (d : Date) : Decidable (ValidDate d) := by
  unfold ValidDate; infer_instance

/-- Number of days in the months strictly before month m. -/
def daysBeforeMonth (leap : Bool) (m : Nat) : Nat :=
  ((List.range (m - 1)).map (fun i => daysInMonth leap (i + 1))).sum

/-- Modelled from the Python standard library (datetime):
    timetuple().tm_yday, the 1-based ordinal of the date in its year. -/
def dayOfYear (d : Date) : Nat :=
  daysBeforeMonth (isLeap d.year) d.month + d.day

/-- app.py line 25: rotation_index = day_of_year % 4. -/
def rotation_index (d : Date) : Nat := dayOfYear d % 4

/-- The calendar successor of a date. -/
def nextDay (d : Date) : Date :=
  if d.day < daysInMonth (isLeap d.year) d.month then
    { d with day := d.day + 1 }
  else if d.month < 12 then
    { d with month := d.month + 1, day := 1 }
  else
    { year := d.year + 1, month := 1, day := 1 }

/-- The date n days after d. -/
def addDays (n : Nat) (d : Date) : Date :=
  match n with
  | 0 => d
  | n + 1 => addDays n (nextDay d)

/-! ### Reading of the shift-pattern time labels

The 12 labels of schedule_pattern are strings of the shape
"HH:00 - HH:00 (Peak|Off)".  To state that they tile the 24-hour day,
the start and end hours denoted by each label are transcribed below and
the transcription is tied back to the label strings themselves. -/

/-- Two-digit zero-padded rendering of an hour. -/
def pad2 (h : Nat) : String :=
  if h < 10 then "0" ++ Nat.repr h else Nat.repr h

/-- The label string for a slot from hour a to hour b with the given
    peak flag, in the format used by app.py lines 73-84. -/
def slotLabel (a b : Nat) (peak : Bool) : String :=
  pad2 a ++ ":00 - " ++ pad2 b ++ ":00 (" ++ (if peak then "Peak" else "Off") ++ ")"

/-- The (start hour, end hour) pairs denoted by the 12 pattern labels,
    in pattern order. -/
def slotHours : List (Nat × Nat) :=
  [(8, 10), (10, 12), (12, 14), (14, 16), (16, 18), (18, 20),
   (20, 22), (22, 0), (0, 2), (2, 4), (4, 6), (6, 8)]

/-! ## Master list and cohort lemmas -/

theorem id_num_mkVolunteer (i : Nat) : (mkVolunteer i).id_num = i := rfl

theorem master_list_eq (n : Nat) :
    master_list n = (List.range' 1 n).map mkVolunteer := by
  rw [master_list, List.range'_eq_map_range, List.map_map]
  exact List.map_congr_left (fun i _ => by simp only [Function.comp]; rw [Nat.add_comm])

theorem ids_master_list (n : Nat) :
    (master_list n).map Volunteer.id_num = List.range' 1 n := by
  rw [master_list_eq, List.map_map]
  have h : Volunteer.id_num ∘ mkVolunteer = id := rfl
  rw [h, List.map_id]

theorem nodup_ids_master (n : Nat) : ((master_list n).map Volunteer.id_num).Nodup := by
  rw [ids_master_list]; exact List.nodup_range' 1 n

theorem range1_drop (s n a : Nat) :
    (List.range' s n).drop a = List.range' (s + a) (n - a) := by
  rcases Nat.le_total a n with h | h
  · have hr : List.range' s a ++ List.range' (s + a) (n - a) = List.range' s n := by
      rw [List.range'_append_1]; congr 1; omega
    rw [← hr, List.drop_left' (by simp)]
  · rw [List.drop_eq_nil_of_le (by simp; omega)]
    have h0 : n - a = 0 := by omega
    rw [h0]; rfl

theorem range1_take (s n a : Nat) :
    (List.range' s n).take a = List.range' s (min a n) := by
  rcases Nat.le_total a n with h | h
  · have hr : List.range' s a ++ List.range' (s + a) (n - a) = List.range' s n := by
      rw [List.range'_append_1]; congr 1; omega
    rw [← hr, List.take_left' (by simp)]
    congr 1; omega
  · rw [List.take_of_length_le (by simp; omega)]
    congr 1; omega

theorem chunk_covers (n : Nat) : n ≤ 4 * chunkSize n := by
  unfold chunkSize; omega

theorem mem_cohort_iff (n : Nat) (i : Nat) (hi : i < 4) (v : Volunteer) :
    v ∈ (groups n).getD i [] ↔
      v = mkVolunteer v.id_num ∧
      chunkSize n * i + 1 ≤ v.id_num ∧ v.id_num ≤ min (chunkSize n * (i + 1)) n := by
  have hc4 := chunk_covers n
  interval_cases i
  · show v ∈ (master_list n).take (chunkSize n) ↔ _
    rw [master_list_eq, ← List.map_take, range1_take, List.mem_map]
    constructor
    · rintro ⟨j, hj, rfl⟩
      rw [List.mem_range'_1] at hj
      simp only [id_num_mkVolunteer]
      exact ⟨trivial, by omega, by omega⟩
    · rintro ⟨hv, h1, h2⟩
      exact ⟨v.id_num, by rw [List.mem_range'_1]; omega, hv.symm⟩
  · show v ∈ ((master_list n).drop (chunkSize n)).take (chunkSize n) ↔ _
    rw [master_list_eq, ← List.map_drop, range1_drop, ← List.map_take, range1_take,
        List.mem_map]
    constructor
    · rintro ⟨j, hj, rfl⟩
      rw [List.mem_range'_1] at hj
      simp only [id_num_mkVolunteer]
      exact ⟨trivial, by omega, by omega⟩
    · rintro ⟨hv, h1, h2⟩
      exact ⟨v.id_num, by rw [List.mem_range'_1]; omega, hv.symm⟩
  · show v ∈ ((master_list n).drop (chunkSize n * 2)).take (chunkSize n) ↔ _
    rw [master_list_eq, ← List.map_drop, range1_drop, ← List.map_take, range1_take,
        List.mem_map]
    constructor
    · rintro ⟨j, hj, rfl⟩
      rw [List.mem_range'_1] at hj
      simp only [id_num_mkVolunteer]
      exact ⟨trivial, by omega, by omega⟩
    · rintro ⟨hv, h1, h2⟩
      exact ⟨v.id_num, by rw [List.mem_range'_1]; omega, hv.symm⟩
  · show v ∈ (master_list n).drop (chunkSize n * 3) ↔ _
    rw [master_list_eq, ← List.map_drop, range1_drop, List.mem_map]
    constructor
    · rintro ⟨j, hj, rfl⟩
      rw [List.mem_range'_1] at hj
      simp only [id_num_mkVolunteer]
      exact ⟨trivial, by omega, by omega⟩
    · rintro ⟨hv, h1, h2⟩
      exact ⟨v.id_num, by rw [List.mem_range'_1]; omega, hv.symm⟩

theorem groups_flatten (n : Nat) : (groups n).flatten = master_list n := by
  have e3 : (master_list n).drop (chunkSize n * 3)
      = ((master_list n).drop (chunkSize n * 2)).drop (chunkSize n) := by
    rw [List.drop_drop]; congr 1
  have e2 : (master_list n).drop (chunkSize n * 2)
      = ((master_list n).drop (chunkSize n)).drop (chunkSize n) := by
    rw [List.drop_drop]; congr 1; omega
  simp only [groups, List.flatten_cons, List.flatten_nil, List.append_nil]
  rw [e3, List.take_append_drop, e2, List.take_append_drop, List.take_append_drop]

/-- C1: for every volunteer count N >= 1 the Cohort Builder produces
    exactly 4 cohorts; their concatenation carries the ids 1..N in order
    with no duplicate, so the cohorts partition the roster with no overlap
    and no omission; cohort i < 3 is the contiguous chunk of size
    ceil(N/4) starting at position i*ceil(N/4) (truncated if the roster
    runs out) and cohort 3 is the remainder; membership in cohort i is
    exactly the id interval (chunk*i, min(chunk*(i+1), N)]. -/
theorem cohort_builder_partition (n : Nat) (hn : 1 ≤ n) :
    (groups n).length = 4 ∧
    ((groups n).flatten).map Volunteer.id_num = List.range' 1 n ∧
    (((groups n).flatten).map Volunteer.id_num).Nodup ∧
    (∀ i : Nat, i < 4 → ∀ v : Volunteer,
      v ∈ (groups n).getD i [] ↔
        (v = mkVolunteer v.id_num ∧
         chunkSize n * i + 1 ≤ v.id_num ∧
         v.id_num ≤ min (chunkSize n * (i + 1)) n)) ∧
    (∀ i : Nat, i < 3 → (groups n).getD i []
        = ((master_list n).drop (chunkSize n * i)).take (chunkSize n)) ∧
    (groups n).getD 3 [] = (master_list n).drop (chunkSize n * 3) := by
  refine ⟨rfl, ?_, ?_, mem_cohort_iff n, ?_, rfl⟩
  · rw [groups_flatten, ids_master_list]
  · rw [groups_flatten]; exact nodup_ids_master n
  · intro i hi
    interval_cases i
    · show (master_list n).take (chunkSize n) = _
      rw [Nat.mul_zero, List.drop_zero]
    · show ((master_list n).drop (chunkSize n)).take (chunkSize n) = _
      rw [Nat.mul_one]
    · rfl

/-- Witness for C1 at N = 5. -/
theorem cohort_builder_partition_witness :
    ((groups 5).flatten).map Volunteer.id_num = List.range' 1 5 :=
  (cohort_builder_partition 5 (by decide)).2.1

/-! ## Rotation and shift-pool lemmas -/

theorem pyIndex_le (r : Int) (len : Nat) : pyIndex r len ≤ len := by
  unfold pyIndex; split <;> omega

theorem groups_length (n : Nat) : (groups n).length = 4 := rfl

theorem rotated_groups_eq (n : Nat) (r : Int) :
    rotated_groups n r
      = (groups n).drop (pyIndex r 4) ++ (groups n).take (pyIndex r 4) := rfl

theorem rotated_groups_perm (n : Nat) (r : Int) :
    List.Perm (rotated_groups n r) (groups n) := by
  rw [rotated_groups_eq]
  exact List.perm_append_comm.trans (List.Perm.of_eq (List.take_append_drop _ _))

theorem rotated_groups_length (n : Nat) (r : Int) : (rotated_groups n r).length = 4 :=
  ((rotated_groups_perm n r).length_eq).trans rfl

theorem flatten_rotated_perm (n : Nat) (r : Int) :
    List.Perm (rotated_groups n r).flatten (master_list n) := by
  rw [rotated_groups_eq, List.flatten_append]
  exact List.perm_append_comm.trans
    (List.Perm.of_eq (by rw [← List.flatten_append, List.take_append_drop, groups_flatten]))

theorem nodup_ids_flatten_rotated (n : Nat) (r : Int) :
    ((rotated_groups n r).flatten.map Volunteer.id_num).Nodup :=
  (((flatten_rotated_perm n r).map Volunteer.id_num).nodup_iff).mpr (nodup_ids_master n)

theorem sublist_flatMap {α β : Type} {s t : List α} (f : α → List β)
    (h : List.Sublist s t) :
    List.Sublist (s.flatMap f) (t.flatMap f) := by
  induction h with
  | slnil => exact List.Sublist.refl _
  | cons a h ih => rw [List.flatMap_cons]; exact List.sublist_append_of_sublist_right ih
  | cons₂ a h ih => rw [List.flatMap_cons, List.flatMap_cons]
                    exact List.Sublist.append_left ih _

theorem list_len4 {α : Type} (l : List α) (h : l.length = 4) :
    ∃ a b c d, l = [a, b, c, d] := by
  rcases l with _ | ⟨a, l⟩
  · simp at h
  rcases l with _ | ⟨b, l⟩
  · simp at h
  rcases l with _ | ⟨c, l⟩
  · simp at h
  rcases l with _ | ⟨d, l⟩
  · simp at h
  rcases l with _ | ⟨e, l⟩
  · exact ⟨a, b, c, d, rfl⟩
  · simp at h

theorem gs_key1 (n : Nat) (r : Int) :
    generate_schedule n r '1' = (rotated_groups n r).getD 0 [] := rfl

theorem gs_key2 (n : Nat) (r : Int) :
    generate_schedule n r '2' = (rotated_groups n r).getD 1 [] := rfl

theorem gs_key3 (n : Nat) (r : Int) :
    generate_schedule n r '3' = (rotated_groups n r).getD 2 [] := rfl

theorem gs_key4 (n : Nat) (r : Int) :
    generate_schedule n r '4' = (rotated_groups n r).getD 3 [] := rfl

theorem flatMap_all_keys (n : Nat) (r : Int) :
    ['1', '2', '3', '4'].flatMap (generate_schedule n r)
      = (rotated_groups n r).flatten := by
  obtain ⟨a, b, c, d, he⟩ := list_len4 (rotated_groups n r) (rotated_groups_length n r)
  simp [List.flatMap_cons, gs_key1, gs_key2, gs_key3, gs_key4, he]

theorem flatMap_keys_sublist (n : Nat) (r : Int) {ks : List Char}
    (h : List.Sublist ks ['1', '2', '3', '4']) :
    List.Sublist (ks.flatMap (generate_schedule n r)) (rotated_groups n r).flatten := by
  rw [← flatMap_all_keys]; exact sublist_flatMap _ h

theorem nodup_ids_merged (n : Nat) (r : Int) {ks : List Char}
    (h : List.Sublist ks ['1', '2', '3', '4']) :
    ((ks.flatMap (generate_schedule n r)).map Volunteer.id_num).Nodup :=
  (nodup_ids_flatten_rotated n r).sublist ((flatMap_keys_sublist n r h).map _)

theorem slotPool_perm (n : Nat) (r : Int) (ks : List Char) :
    List.Perm (slotPool n r ks) (ks.flatMap (generate_schedule n r)) :=
  List.mergeSort_perm _ _

theorem nodup_ids_slotPool (n : Nat) (r : Int) {ks : List Char}
    (h : List.Sublist ks ['1', '2', '3', '4']) :
    ((slotPool n r ks).map Volunteer.id_num).Nodup :=
  (((slotPool_perm n r ks).map Volunteer.id_num).nodup_iff).mpr (nodup_ids_merged n r h)

theorem slotPool_sorted_le (n : Nat) (r : Int) (ks : List Char) :
    (slotPool n r ks).Pairwise (fun a b => a.id_num ≤ b.id_num) := by
  have h := List.sorted_mergeSort
    (fun a b c (hab : decide (a.id_num ≤ b.id_num)) (hbc : decide (b.id_num ≤ c.id_num)) =>
       by simp at hab hbc ⊢; omega)
    (fun a b => by simp [Nat.le_total])
    (ks.flatMap (generate_schedule n r))
  exact h.imp (fun hab => by simpa using hab)

theorem keys_sublist_all :
    ∀ e ∈ schedule_pattern, List.Sublist e.2.1 ['1', '2', '3', '4'] := by
  decide

theorem slotPool_sorted_strict (n : Nat) (r : Int) {ks : List Char}
    (h : List.Sublist ks ['1', '2', '3', '4']) :
    (slotPool n r ks).Pairwise (fun a b => a.id_num < b.id_num) := by
  have hle := slotPool_sorted_le n r ks
  have hne : (slotPool n r ks).Pairwise (fun a b => a.id_num ≠ b.id_num) :=
    List.pairwise_map.mp (nodup_ids_slotPool n r h)
  exact (hle.and hne).imp (fun hab => Nat.lt_of_le_of_ne hab.1 hab.2)

/-- C3: for every volunteer count, every rotation argument and every time
    slot of the pattern, the merged Shift Pool is strictly ascending by
    id_num (regardless of which cohorts were merged and in which key order
    they were concatenated), and its size is the sum of the sizes of the
    active cohorts. -/
theorem pool_sorted_and_sized (n : Nat) (r : Int) :
    ∀ e ∈ schedule_pattern,
      (slotPool n r e.2.1).Pairwise (fun a b => a.id_num < b.id_num) ∧
      (slotPool n r e.2.1).length
        = (e.2.1.map (fun k => (generate_schedule n r k).length)).sum := by
  intro e he
  refine ⟨slotPool_sorted_strict n r (keys_sublist_all e he), ?_⟩
  rw [(slotPool_perm n r e.2.1).length_eq, List.flatMap_def, List.length_flatten,
      List.map_map]
  rfl

/-- Witness for C3 at N = 8, rotation 1, first pattern entry. -/
theorem pool_sorted_and_sized_witness :
    (slotPool 8 1 ['1', '2']).Pairwise (fun a b => a.id_num < b.id_num) ∧
    (slotPool 8 1 ['1', '2']).length
      = (['1', '2'].map (fun k => (generate_schedule 8 1 k).length)).sum :=
  pool_sorted_and_sized 8 1 ("08:00 - 10:00 (Peak)", ['1', '2'], 4) (by decide)

/-! ## Distribution-loop lemmas -/

theorem distributeLoop_foldl (pool : List Volunteer) (req : Nat) :
    ∀ (c : Nat) (acc : List (List Volunteer)) (idx : Nat),
      (List.range c).foldl
        (fun s _ => (s.1 ++ [(pool.drop s.2).take req], s.2 + req)) (acc, idx)
      = (acc ++ (List.range c).map (fun i => (pool.drop (idx + i * req)).take req),
         idx + c * req) := by
  intro c
  induction c with
  | zero => intro acc idx; simp
  | succ c ih =>
    intro acc idx
    rw [List.range_succ, List.foldl_append, ih]
    simp [List.map_append, Nat.succ_mul, Nat.add_assoc, List.append_assoc]

theorem counterSlices_eq (pool : List Volunteer) (req c : Nat) :
    counterSlices pool req c
      = (List.range c).map (fun i => (pool.drop (i * req)).take req) := by
  unfold counterSlices distributeLoop
  rw [distributeLoop_foldl]
  simp

theorem distributeLoop_idx (pool : List Volunteer) (req c : Nat) :
    (distributeLoop pool req c).2 = c * req := by
  unfold distributeLoop
  rw [distributeLoop_foldl]
  simp

theorem leftovers_eq (pool : List Volunteer) (req c : Nat) :
    leftovers pool req c = pool.drop (c * req) := by
  unfold leftovers
  rw [distributeLoop_idx]

theorem counterSlices_length (pool : List Volunteer) (req c : Nat) :
    (counterSlices pool req c).length = c := by
  rw [counterSlices_eq]; simp

theorem counterSlices_getD (pool : List Volunteer) (req c i : Nat) (h : i < c) :
    (counterSlices pool req c).getD i [] = (pool.drop (i * req)).take req := by
  rw [counterSlices_eq, List.getD_eq_getElem?_getD, List.getElem?_map,
      List.getElem?_range h]
  rfl

theorem slices_conservation (pool : List Volunteer) (req : Nat) :
    ∀ c, (((List.range c).map
            (fun i => (pool.drop (i * req)).take req)).map List.length).sum
        + (pool.drop (c * req)).length = pool.length := by
  intro c
  induction c with
  | zero => simp
  | succ c ih =>
    rw [List.range_succ, List.map_append, List.map_append, List.sum_append]
    have hd : pool.drop ((c + 1) * req) = (pool.drop (c * req)).drop req := by
      rw [List.drop_drop, Nat.succ_mul]
    rw [hd]
    simp only [List.map_cons, List.map_nil, List.sum_cons, List.sum_nil,
      List.length_take, List.length_drop] at *
    omega

theorem flatten_slices (pool : List Volunteer) (req : Nat) :
    ∀ c, ((List.range c).map (fun i => (pool.drop (i * req)).take req)).flatten
        = pool.take (c * req) := by
  intro c
  induction c with
  | zero => simp
  | succ c ih =>
    rw [List.range_succ, List.map_append, List.flatten_append, ih]
    simp only [List.map_cons, List.map_nil, List.flatten_cons, List.flatten_nil,
      List.append_nil]
    rw [List.take_drop]
    have h2 : pool.take (c * req) = (pool.take (c * req + req)).take (c * req) := by
      rw [List.take_take]
      congr 1
      omega
    rw [h2, List.take_append_drop]
    congr 1
    exact (Nat.succ_mul c req).symm

theorem pool_decomposition (pool : List Volunteer) (req c : Nat) :
    (counterSlices pool req c).flatten ++ leftovers pool req c = pool := by
  rw [counterSlices_eq, leftovers_eq, flatten_slices, List.take_append_drop]

/-- C2: for every time slot, counter i receives exactly the contiguous
    slice pool[i*req : i*req + req] (Python slice semantics: shorter or
    empty at the end), the reserves are exactly pool[counters*req :], and
    the lengths of the 30 counter slices plus the reserve list length sum
    to the pool size exactly. -/
theorem allocation_slices_and_conservation (n : Nat) (r : Int) :
    ∀ e ∈ schedule_pattern,
      (∀ i, i < counters →
        (counterSlices (slotPool n r e.2.1) e.2.2 counters).getD i []
          = ((slotPool n r e.2.1).drop (i * e.2.2)).take e.2.2) ∧
      leftovers (slotPool n r e.2.1) e.2.2 counters
        = (slotPool n r e.2.1).drop (counters * e.2.2) ∧
      ((counterSlices (slotPool n r e.2.1) e.2.2 counters).map List.length).sum
        + (leftovers (slotPool n r e.2.1) e.2.2 counters).length
        = (slotPool n r e.2.1).length := by
  intro e he
  refine ⟨fun i hi => counterSlices_getD _ _ _ _ hi, leftovers_eq _ _ _, ?_⟩
  rw [counterSlices_eq, leftovers_eq]
  exact slices_conservation _ _ _

/-- Witness for C2 at N = 8, rotation 1, first pattern entry, counter 0. -/
theorem allocation_slices_and_conservation_witness :
    (counterSlices (slotPool 8 1 ['1', '2']) 4 counters).getD 0 []
      = ((slotPool 8 1 ['1', '2']).drop (0 * 4)).take 4 :=
  (allocation_slices_and_conservation 8 1 ("08:00 - 10:00 (Peak)", ['1', '2'], 4)
    (by decide)).1 0 (by decide)

theorem getD_map_comm {α β : Type} (f : α → β) (S : List (List α)) (i : Nat) :
    (S.getD i []).map f = (S.map (List.map f)).getD i [] := by
  rcases Nat.lt_or_ge i S.length with hi | hi
  · rw [List.getD_eq_getElem?_getD, List.getD_eq_getElem?_getD, List.getElem?_map,
        List.getElem?_eq_getElem hi]
    rfl
  · have h1 : S[i]? = none := List.getElem?_eq_none (by omega)
    have h2 : (S.map (List.map f))[i]? = none := List.getElem?_eq_none (by simpa using hi)
    rw [List.getD_eq_getElem?_getD, List.getD_eq_getElem?_getD, h1, h2]
    rfl

theorem pairwise_disjoint_parts {α : Type} (M : List (List α))
    (h : M.Pairwise List.Disjoint) {i j : Nat} (hi : i < M.length) (hj : j < M.length)
    (hij : i ≠ j) {x : α} (hxi : x ∈ M.getD i []) (hxj : x ∈ M.getD j []) : False := by
  rw [List.getD_eq_getElem?_getD, List.getElem?_eq_getElem hi, Option.getD_some] at hxi
  rw [List.getD_eq_getElem?_getD, List.getElem?_eq_getElem hj, Option.getD_some] at hxj
  rcases Nat.lt_or_ge i j with hlt | hge
  · exact (List.pairwise_iff_getElem.mp h i j hi hj hlt) hxi hxj
  · exact (List.pairwise_iff_getElem.mp h j i hj hi (by omega)) hxj hxi

theorem mem_flatten_getD {α : Type} (M : List (List α)) (i : Nat) {x : α}
    (hx : x ∈ M.getD i []) : x ∈ M.flatten := by
  rcases Nat.lt_or_ge i M.length with hi | hi
  · rw [List.getD_eq_getElem?_getD, List.getElem?_eq_getElem hi, Option.getD_some] at hx
    exact List.mem_flatten_of_mem (List.getElem_mem hi) hx
  · rw [List.getD_eq_getElem?_getD, List.getElem?_eq_none (by omega)] at hx
    simp at hx

/-- C9: within any single time slot, no volunteer id appears in the
    assignments of two different counters, and no volunteer assigned to a
    counter also appears in that slot's reserve list. -/
theorem no_volunteer_twice_in_slot (n : Nat) (r : Int) :
    ∀ e ∈ schedule_pattern,
      (∀ i j, i < counters → j < counters → i ≠ j →
        ∀ x, x ∈ ((counterSlices (slotPool n r e.2.1) e.2.2 counters).getD i []).map
                  Volunteer.id_num →
          x ∉ ((counterSlices (slotPool n r e.2.1) e.2.2 counters).getD j []).map
                Volunteer.id_num) ∧
      (∀ i, i < counters →
        ∀ x, x ∈ ((counterSlices (slotPool n r e.2.1) e.2.2 counters).getD i []).map
                  Volunteer.id_num →
          x ∉ (leftovers (slotPool n r e.2.1) e.2.2 counters).map Volunteer.id_num) := by
  intro e he
  have hnd : (((counterSlices (slotPool n r e.2.1) e.2.2 counters).flatten
      ++ leftovers (slotPool n r e.2.1) e.2.2 counters).map Volunteer.id_num).Nodup := by
    rw [pool_decomposition]
    exact nodup_ids_slotPool n r (keys_sublist_all e he)
  rw [List.map_append] at hnd
  obtain ⟨hnd1, hnd2, hdisj⟩ := List.nodup_append.mp hnd
  have hlen : (counterSlices (slotPool n r e.2.1) e.2.2 counters).length = counters :=
    counterSlices_length _ _ _
  have hM : ((counterSlices (slotPool n r e.2.1) e.2.2 counters).map
      (List.map Volunteer.id_num)).flatten.Nodup := by
    rw [← List.map_flatten]; exact hnd1
  obtain ⟨-, hpw⟩ := List.nodup_flatten.mp hM
  have hMlen : ((counterSlices (slotPool n r e.2.1) e.2.2 counters).map
      (List.map Volunteer.id_num)).length = counters := by
    rw [List.length_map, hlen]
  constructor
  · intro i j hi hj hij x hxi hxj
    rw [getD_map_comm] at hxi hxj
    exact pairwise_disjoint_parts _ hpw (by omega) (by omega) hij hxi hxj
  · intro i hi x hxi hxl
    rw [getD_map_comm] at hxi
    have hxflat := mem_flatten_getD _ _ hxi
    rw [← List.map_flatten] at hxflat
    exact hdisj hxflat hxl

/-- Witness for C9 at N = 1, rotation 0, the 16:00 off-peak entry:
    volunteer 1 sits at counter 0 and therefore not at counter 1. -/
theorem no_volunteer_twice_in_slot_witness :
    (1 : Nat) ∉ ((counterSlices (slotPool 1 0 ['1']) 2 counters).getD 1 []).map
        Volunteer.id_num := by
  have hpool : slotPool 1 0 ['1'] = [mkVolunteer 1] := by
    have hfm : ['1'].flatMap (generate_schedule 1 0) = [mkVolunteer 1] := rfl
    show (['1'].flatMap (generate_schedule 1 0)).mergeSort
        (fun a b => decide (a.id_num ≤ b.id_num)) = [mkVolunteer 1]
    rw [hfm, List.mergeSort_singleton]
  refine (no_volunteer_twice_in_slot 1 0 ("16:00 - 18:00 (Off)", ['1'], 2)
      (by decide)).1 0 1 (by decide) (by decide) (by decide) 1 ?_
  rw [counterSlices_getD _ _ _ _ (by decide), hpool]
  decide

/-! ## Rotation Mapper: behaviour on out-of-range arguments (C5) -/

/-- C5 counterexample: the mapper does not defensively reduce its argument
    modulo 4.  At N = 4, calling it with r = 5 is not the same as calling
    it with 5 mod 4 = 1: Python slice clamping makes groups[5:] + groups[:5]
    the identity arrangement, so key '1' keeps cohort A instead of
    receiving cohort B. -/
theorem rotation_mapper_mod_counterexample :
    generate_schedule 4 5 '1' ≠ generate_schedule 4 (5 % 4) '1' := by
  decide

/-- C5 amended: for every integer r with -4 <= r <= 4 (which covers the
    rotation indices 0..3 the program ever passes), the mapper left-rotates
    the cohort sequence by r mod 4, sending key i to
    original[(i + r mod 4) mod 4]; for every integer r whatsoever the
    resulting map from the keys '1'..'4' is a bijection onto the 4 cohorts
    (arguments beyond that range are clamped by Python slicing to the
    identity rotation rather than reduced mod 4). -/
theorem rotation_mapper_amended (n : Nat) (r : Int) :
    ((-4 ≤ r ∧ r ≤ 4) → ∀ i : Nat, i < 4 →
      generate_schedule n r (['1', '2', '3', '4'].getD i ' ')
        = (groups n).getD ((i + (r % 4).toNat) % 4) []) ∧
    List.Perm (['1', '2', '3', '4'].map (generate_schedule n r)) (groups n) := by
  constructor
  · rintro ⟨h1, h2⟩ i hi
    interval_cases r <;> interval_cases i <;> rfl
  · obtain ⟨a, b, c, d, he⟩ := list_len4 (rotated_groups n r) (rotated_groups_length n r)
    have hmap : ['1', '2', '3', '4'].map (generate_schedule n r) = rotated_groups n r := by
      simp [List.map_cons, gs_key1, gs_key2, gs_key3, gs_key4, he]
    rw [hmap]
    exact rotated_groups_perm n r

/-- Witness for the amended C5 at N = 8, r = -3, key '1'. -/
theorem rotation_mapper_amended_witness :
    generate_schedule 8 (-3) (['1', '2', '3', '4'].getD 0 ' ')
      = (groups 8).getD ((0 + ((-3 : Int) % 4).toNat) % 4) [] :=
  (rotation_mapper_amended 8 (-3)).1 ⟨by decide, by decide⟩ 0 (by decide)

/-! ## Rotation index and the calendar (C4) -/

theorem daysInMonth_pos (leap : Bool) (m : Nat) : 1 ≤ daysInMonth leap m := by
  unfold daysInMonth
  split_ifs <;> omega

theorem daysBeforeMonth_succ (leap : Bool) (m : Nat) (hm : 1 ≤ m) :
    daysBeforeMonth leap (m + 1) = daysBeforeMonth leap m + daysInMonth leap m := by
  obtain ⟨m', rfl⟩ : ∃ m', m = m' + 1 := ⟨m - 1, by omega⟩
  unfold daysBeforeMonth
  simp [List.range_succ]

theorem nextDay_valid {d : Date} (h : ValidDate d) : ValidDate (nextDay d) := by
  obtain ⟨h1, h2, h3, h4⟩ := h
  unfold nextDay
  split_ifs with hd hm
  · refine ⟨?_, ?_, ?_, ?_⟩ <;> simp <;> omega
  · have hp := daysInMonth_pos (isLeap d.year) (d.month + 1)
    refine ⟨?_, ?_, ?_, ?_⟩ <;> simp <;> omega
  · have hp := daysInMonth_pos (isLeap (d.year + 1)) 1
    refine ⟨?_, ?_, ?_, ?_⟩ <;> simp <;> omega

theorem nextDay_year_ge (d : Date) : d.year ≤ (nextDay d).year := by
  unfold nextDay
  split_ifs <;> simp

theorem dayOfYear_nextDay {d : Date} (h : ValidDate d)
    (hy : (nextDay d).year = d.year) :
    dayOfYear (nextDay d) = dayOfYear d + 1 := by
  obtain ⟨h1, h2, h3, h4⟩ := h
  unfold nextDay at hy ⊢
  split_ifs at hy ⊢ with hd hm
  · simp [dayOfYear]
    omega
  · have hde : d.day = daysInMonth (isLeap d.year) d.month := by omega
    simp [dayOfYear]
    rw [daysBeforeMonth_succ _ _ h1]
    omega
  · simp at hy

theorem rotation_index_nextDay {d : Date} (h : ValidDate d)
    (hy : (nextDay d).year = d.year) :
    rotation_index (nextDay d) = (rotation_index d + 1) % 4 := by
  unfold rotation_index
  rw [dayOfYear_nextDay h hy]
  omega

/-- C4 counterexample: tm_yday resets at the year boundary, so the
    4-day periodicity and the advance-by-one law both fail across
    New Year: 2025-12-30 has rotation index 0 but 2026-01-03 has index 3,
    and 2025-12-31 (index 1) is followed by 2026-01-01 with index 1,
    not (1+1) mod 4. -/
theorem rotation_periodicity_counterexample :
    rotation_index (addDays 4 { year := 2025, month := 12, day := 30 })
        ≠ rotation_index { year := 2025, month := 12, day := 30 } ∧
    rotation_index (nextDay { year := 2025, month := 12, day := 31 })
        ≠ (rotation_index { year := 2025, month := 12, day := 31 } + 1) % 4 := by
  constructor <;> decide

/-- C4 amended: on any valid date whose successor (resp. fourth successor)
    falls in the same calendar year, consecutive days advance the rotation
    index by exactly 1 modulo 4, and the index is periodic over 4 days:
    rotation_index(d + 4 days) = rotation_index(d).  Across a year boundary
    the law fails (see the counterexample), because day-of-year restarts
    at 1. -/
theorem rotation_periodicity_same_year (d : Date) (h : ValidDate d) :
    ((nextDay d).year = d.year →
       rotation_index (nextDay d) = (rotation_index d + 1) % 4) ∧
    ((addDays 4 d).year = d.year → rotation_index (addDays 4 d) = rotation_index d) := by
  refine ⟨rotation_index_nextDay h, ?_⟩
  intro hy
  have h4eq : addDays 4 d = nextDay (nextDay (nextDay (nextDay d))) := rfl
  rw [h4eq] at hy ⊢
  have hle1 := nextDay_year_ge d
  have hle2 := nextDay_year_ge (nextDay d)
  have hle3 := nextDay_year_ge (nextDay (nextDay d))
  have hle4 := nextDay_year_ge (nextDay (nextDay (nextDay d)))
  have hy1 : (nextDay d).year = d.year := by omega
  have hy2 : (nextDay (nextDay d)).year = (nextDay d).year := by omega
  have hy3 : (nextDay (nextDay (nextDay d))).year = (nextDay (nextDay d)).year := by omega
  have hy4 : (nextDay (nextDay (nextDay (nextDay d)))).year
      = (nextDay (nextDay (nextDay d))).year := by omega
  have hv1 := nextDay_valid h
  have hv2 := nextDay_valid hv1
  have hv3 := nextDay_valid hv2
  have e1 := dayOfYear_nextDay h hy1
  have e2 := dayOfYear_nextDay hv1 hy2
  have e3 := dayOfYear_nextDay hv2 hy3
  have e4 := dayOfYear_nextDay hv3 hy4
  unfold rotation_index
  omega

/-- Witness for the amended C4 at 2026-03-05. -/
theorem rotation_periodicity_same_year_witness :
    rotation_index (addDays 4 { year := 2026, month := 3, day := 5 })
      = rotation_index { year := 2026, month := 3, day := 5 } :=
  (rotation_periodicity_same_year { year := 2026, month := 3, day := 5 }
    (by decide)).2 (by decide)

/-! ## Static pattern structure (C8) -/

/-- C8: the static shift pattern has exactly 12 entries; its labels are
    exactly the renderings of the slotHours transcription with the Peak
    flag of the first four entries, each slot spans 2 hours wrapping at
    midnight with every even start hour covered exactly once (the 12
    two-hour slots tile the 24-hour day with no gap and no overlap); the
    day splits into the Peak regime (4 entries, 4 per counter, two active
    keys each) followed by the Off-Peak regime (8 entries, 2 per counter),
    each off-peak entry driven by exactly one rotation key, in round-robin
    order 1,2,3,4,1,2,3,4. -/
theorem shift_pattern_structure :
    schedule_pattern.length = 12 ∧
    schedule_pattern.map Prod.fst
      = (List.zip slotHours
          [true, true, true, true, false, false, false, false,
           false, false, false, false]).map (fun p => slotLabel p.1.1 p.1.2 p.2) ∧
    (∀ p ∈ slotHours, p.2 = (p.1 + 2) % 24) ∧
    List.Perm (slotHours.map Prod.fst) [0, 2, 4, 6, 8, 10, 12, 14, 16, 18, 20, 22] ∧
    schedule_pattern.map (fun e => e.2.2) = [4, 4, 4, 4, 2, 2, 2, 2, 2, 2, 2, 2] ∧
    (schedule_pattern.filter (fun e => e.2.2 = 4)).map (fun e => e.2.1)
      = [['1', '2'], ['3', '4'], ['1', '2'], ['3', '4']] ∧
    (schedule_pattern.filter (fun e => e.2.2 = 2)).map (fun e => e.2.1)
      = [['1'], ['2'], ['3'], ['4'], ['1'], ['2'], ['3'], ['4']] := by
  refine ⟨rfl, by decide, by decide, by decide, rfl, by decide, by decide⟩

/-- Witness for C8 at the first slot-hour pair. -/
theorem shift_pattern_structure_witness :
    ((8, 10) : Nat × Nat).2 = (((8, 10) : Nat × Nat).1 + 2) % 24 :=
  shift_pattern_structure.2.2.1 (8, 10) (by decide)

/-! ## String split/join lemmas (C6, C7) -/

theorem splitCS_cons_ne (acc : List Char) (c : Char) (l : List Char) (hc : c ≠ ',') :
    splitCS acc (c :: l) = splitCS (acc ++ [c]) l := by
  cases l with
  | nil => rfl
  | cons c2 rest =>
    rw [splitCS]
    rw [if_neg (fun h => hc h.1)]

theorem splitCS_sep (acc rest : List Char) :
    splitCS acc (',' :: ' ' :: rest) = acc :: splitCS [] rest := by
  rw [splitCS]
  rw [if_pos ⟨rfl, rfl⟩]

theorem splitCS_no_comma (t : List Char) (h : ∀ c ∈ t, c ≠ ',') :
    ∀ (acc rest : List Char), splitCS acc (t ++ rest) = splitCS (acc ++ t) rest := by
  induction t with
  | nil => intro acc rest; simp
  | cons c t ih =>
    intro acc rest
    rw [List.cons_append, splitCS_cons_ne _ _ _ (h c (by simp)),
        ih (fun c' hc' => h c' (by simp [hc'])), List.append_assoc]
    rfl

theorem splitCS_joinCS (ts : List (List Char)) (h0 : ts ≠ [])
    (h : ∀ t ∈ ts, ∀ c ∈ t, c ≠ ',') :
    splitCS [] (joinCS ts) = ts := by
  induction ts with
  | nil => exact absurd rfl h0
  | cons t ts ih =>
    cases ts with
    | nil =>
      have hj : joinCS [t] = t := by simp [joinCS]
      rw [hj]
      have hs := splitCS_no_comma t (h t (by simp)) [] []
      simpa using hs
    | cons t2 ts2 =>
      have hj : joinCS (t :: t2 :: ts2) = t ++ (',' :: ' ' :: joinCS (t2 :: ts2)) := by
        simp [joinCS, List.intersperse_cons₂]
      rw [hj, splitCS_no_comma t (h t (by simp)) [] _, List.nil_append, splitCS_sep]
      congr 1
      exact ih (by simp) (fun t' ht' c hc => h t' (by simp [ht']) c hc)

theorem pySplitCS_joinCS (ss : List String) (h0 : ss ≠ [])
    (h : ∀ s ∈ ss, ∀ c ∈ s.data, c ≠ ',') :
    pySplitCS (pyJoinCS ss) = ss := by
  unfold pySplitCS pyJoinCS
  have hsp : splitCS [] (joinCS (ss.map String.data)) = ss.map String.data := by
    refine splitCS_joinCS _ (by simpa using h0) ?_
    intro t ht c hc
    obtain ⟨s, hs, rfl⟩ := List.mem_map.mp ht
    exact h s hs c hc
  show (splitCS [] (String.mk (joinCS (ss.map String.data))).data).map String.mk = ss
  rw [show (String.mk (joinCS (ss.map String.data))).data = joinCS (ss.map String.data)
        from rfl, hsp, List.map_map]
  have hid : (String.mk ∘ String.data) = id := funext (fun s => rfl)
  rw [hid, List.map_id]

theorem digitChar_isDigit : ∀ m, m < 10 → (Nat.digitChar m).isDigit = true := by
  decide

theorem toDigitsCore_digits :
    ∀ (fuel n : Nat) (acc : List Char), (∀ c ∈ acc, c.isDigit = true) →
      ∀ c ∈ Nat.toDigitsCore 10 fuel n acc, c.isDigit = true := by
  intro fuel
  induction fuel with
  | zero =>
    intro n acc hacc c hc
    rw [Nat.toDigitsCore] at hc
    exact hacc c hc
  | succ fuel ih =>
    intro n acc hacc c hc
    rw [Nat.toDigitsCore] at hc
    have hd : (Nat.digitChar (n % 10)).isDigit = true :=
      digitChar_isDigit _ (Nat.mod_lt _ (by omega))
    by_cases h0 : n / 10 = 0
    · simp only [h0, if_pos rfl] at hc
      rcases List.mem_cons.mp hc with rfl | hc
      · exact hd
      · exact hacc c hc
    · simp only [if_neg h0] at hc
      refine ih (n / 10) _ ?_ c hc
      intro c' hc'
      rcases List.mem_cons.mp hc' with rfl | h'
      · exact hd
      · exact hacc _ h'

theorem repr_data_digits (k : Nat) : ∀ c ∈ (Nat.repr k).data, c.isDigit = true := by
  intro c hc
  have hrepr : (Nat.repr k).data = Nat.toDigitsCore 10 (k + 1) k [] := rfl
  rw [hrepr] at hc
  exact toDigitsCore_digits _ _ _ (by simp) c hc

theorem id_str_data (k : Nat) :
    (mkVolunteer k).id_str.data = 'V' :: '-' :: (Nat.repr k).data := rfl

theorem id_str_no_comma (k : Nat) : ∀ c ∈ (mkVolunteer k).id_str.data, c ≠ ',' := by
  intro c hc
  rw [id_str_data] at hc
  rcases List.mem_cons.mp hc with rfl | hc
  · decide
  rcases List.mem_cons.mp hc with rfl | hc
  · decide
  · have hdig := repr_data_digits k c hc
    intro he
    rw [he] at hdig
    exact absurd hdig (by decide)

theorem marker_ne_vol (k : Nat) : (mkVolunteer k).id_str ≠ "⚠️ EMPTY" := by
  intro he
  have h2 := congrArg (fun s => s.data.head?) he
  simp only [id_str_data, List.head?_cons] at h2
  exact absurd h2 (by decide)

theorem names_str_cons (p : Volunteer) (l : List Volunteer) :
    names_str (p :: l) = pyJoinCS ((p :: l).map Volunteer.id_str) := by
  simp [names_str]

theorem token_match_iff (ppl : List Volunteer) (target : String)
    (htgt : ∃ j, target = (mkVolunteer j).id_str)
    (hmk : ∀ p ∈ ppl, ∃ k, p = mkVolunteer k) :
    (target ∈ pySplitCS (names_str ppl) ↔ target ∈ ppl.map Volunteer.id_str) := by
  obtain ⟨j, rfl⟩ := htgt
  cases ppl with
  | nil =>
    constructor
    · intro hmem
      have hm : pySplitCS (names_str ([] : List Volunteer)) = ["⚠️ EMPTY"] := rfl
      rw [hm, List.mem_singleton] at hmem
      exact absurd hmem (marker_ne_vol j)
    · intro hmem
      simp at hmem
  | cons p l =>
    rw [names_str_cons, pySplitCS_joinCS _ (by simp) ?_]
    intro s hs c hc
    obtain ⟨q, hq, rfl⟩ := List.mem_map.mp hs
    obtain ⟨k, rfl⟩ := hmk q hq
    exact id_str_no_comma k c hc

theorem mem_master_form {n : Nat} {v : Volunteer} (hv : v ∈ master_list n) :
    ∃ k, v = mkVolunteer k := by
  rw [master_list_eq] at hv
  obtain ⟨j, _, rfl⟩ := List.mem_map.mp hv
  exact ⟨j, rfl⟩

theorem slice_subset_pool {pool : List Volunteer} {req c i : Nat} {x : Volunteer}
    (hx : x ∈ (counterSlices pool req c).getD i []) : x ∈ pool := by
  have hf := mem_flatten_getD _ _ hx
  rw [← pool_decomposition pool req c]
  exact List.mem_append_left _ hf

theorem leftovers_subset_pool {pool : List Volunteer} {req c : Nat} {x : Volunteer}
    (hx : x ∈ leftovers pool req c) : x ∈ pool := by
  rw [leftovers_eq] at hx
  exact List.drop_subset _ _ hx

theorem pool_mem_master {n : Nat} {r : Int} {ks : List Char} {x : Volunteer}
    (hks : List.Sublist ks ['1', '2', '3', '4']) (hx : x ∈ slotPool n r ks) :
    x ∈ master_list n := by
  have h1 := (slotPool_perm n r ks).mem_iff.mp hx
  have h2 := (flatMap_keys_sublist n r hks).subset h1
  exact (flatten_rotated_perm n r).mem_iff.mp h2

/-- C7: error conditions are representational: an empty counter slice is
    rendered as the explicit marker, the marker is distinguishable from
    any real (possibly single-volunteer) assignment, and a time slot whose
    leftover list is empty contributes no entry at all to the reserves
    log. -/
theorem representational_errors (n : Nat) (r : Int) :
    (∀ ks req i,
      (counterSlices (slotPool n r ks) req counters).getD i [] = [] →
      cell n r ks req i = "⚠️ EMPTY") ∧
    (∀ ppl : List Volunteer, ppl ≠ [] → (∀ p ∈ ppl, ∃ k, p = mkVolunteer k) →
      names_str ppl ≠ "⚠️ EMPTY") ∧
    (∀ e ∈ schedule_pattern,
      leftovers (slotPool n r e.2.1) e.2.2 counters = [] →
      e.1 ∉ (reserves_log n r).map Prod.fst) := by
  refine ⟨?_, ?_, ?_⟩
  · intro ks req i hempty
    unfold cell
    rw [hempty]
    rfl
  · rintro (_ | ⟨p, l⟩) hne hmk he
    · exact absurd rfl hne
    rw [names_str_cons] at he
    have hnc : ∀ s ∈ (p :: l).map Volunteer.id_str, ∀ c ∈ s.data, c ≠ ',' := by
      intro s hs c hc
      obtain ⟨q, hq, rfl⟩ := List.mem_map.mp hs
      obtain ⟨k, rfl⟩ := hmk q hq
      exact id_str_no_comma k c hc
    have hsplit := pySplitCS_joinCS _ (by simp) hnc
    rw [he] at hsplit
    have hmark : pySplitCS "⚠️ EMPTY" = ["⚠️ EMPTY"] := rfl
    rw [hmark] at hsplit
    have hhead : Volunteer.id_str p = "⚠️ EMPTY" := by
      have h3 := congrArg (fun l => l.head?) hsplit.symm
      simpa using h3
    obtain ⟨k, rfl⟩ := hmk p (by simp)
    exact marker_ne_vol k hhead
  · intro e he hempty hmem
    obtain ⟨entry, hentry, hfst⟩ := List.mem_map.mp hmem
    unfold reserves_log at hentry
    obtain ⟨e', he', hsome⟩ := List.mem_filterMap.mp hentry
    dsimp only at hsome
    split_ifs at hsome with hcond
    have hpair := Option.some.inj hsome
    have hlbl : e'.1 = e.1 := by rw [← hpair] at hfst; simpa using hfst
    have hlabels : (schedule_pattern.map Prod.fst).Nodup := by decide
    have hee : e' = e := List.inj_on_of_nodup_map hlabels he' he hlbl
    rw [hee, hempty] at hcond
    exact hcond rfl

/-- Witness for C7 at N = 8, rotation 1. -/
theorem representational_errors_witness :
    names_str [mkVolunteer 7] ≠ "⚠️ EMPTY" :=
  (representational_errors 8 1).2.1 [mkVolunteer 7] (by simp)
    (fun p hp => ⟨7, by simpa using hp⟩)

/-- C6: the volunteer lookup matches exact tokens only: a target display
    id matches a rendered cell iff it is literally one of the strings
    obtained by splitting the cell on ", ", which for real cells (and
    reserve strings) are exactly the display ids of the assigned
    volunteers; in particular "V-1" never matches inside a cell containing
    only V-10 and V-100, while it does match a cell containing V-1. -/
theorem exact_token_search (n : Nat) (r : Int) :
    (∀ (ppl : List Volunteer) (j : Nat), (∀ p ∈ ppl, ∃ k, p = mkVolunteer k) →
       (("V-" ++ Nat.repr j) ∈ pySplitCS (names_str ppl)
          ↔ ("V-" ++ Nat.repr j) ∈ ppl.map Volunteer.id_str)) ∧
    (∀ e ∈ schedule_pattern, ∀ i j : Nat,
       (("V-" ++ Nat.repr j) ∈ pySplitCS (cell n r e.2.1 e.2.2 i)
          ↔ ("V-" ++ Nat.repr j)
              ∈ ((counterSlices (slotPool n r e.2.1) e.2.2 counters).getD i []).map
                  Volunteer.id_str)) ∧
    (∀ e ∈ schedule_pattern, ∀ j : Nat,
       (("V-" ++ Nat.repr j)
           ∈ pySplitCS (pyJoinCS ((leftovers (slotPool n r e.2.1) e.2.2 counters).map
               Volunteer.id_str))
          ↔ ("V-" ++ Nat.repr j)
              ∈ (leftovers (slotPool n r e.2.1) e.2.2 counters).map Volunteer.id_str)) ∧
    "V-1" ∉ pySplitCS (names_str [mkVolunteer 10, mkVolunteer 100]) ∧
    "V-1" ∈ pySplitCS (names_str [mkVolunteer 1, mkVolunteer 10, mkVolunteer 100]) := by
  refine ⟨?_, ?_, ?_, by decide, by decide⟩
  · intro ppl j hmk
    exact token_match_iff ppl _ ⟨j, rfl⟩ hmk
  · intro e he i j
    unfold cell
    refine token_match_iff _ _ ⟨j, rfl⟩ ?_
    intro p hp
    exact mem_master_form
      (pool_mem_master (keys_sublist_all e he) (slice_subset_pool hp))
  · intro e he j
    cases hlo : leftovers (slotPool n r e.2.1) e.2.2 counters with
    | nil =>
      simp only [List.map_nil]
      constructor
      · intro hmem
        have hempty2 : pySplitCS (pyJoinCS []) = [""] := rfl
        rw [hempty2, List.mem_singleton] at hmem
        have hd := congrArg String.data hmem
        rw [show ("V-" ++ Nat.repr j).data = 'V' :: '-' :: (Nat.repr j).data from rfl] at hd
        simp at hd
      · intro hmem
        simp at hmem
    | cons p l =>
      rw [pySplitCS_joinCS _ (by simp) ?_]
      intro s hs c hc
      obtain ⟨q, hq, rfl⟩ := List.mem_map.mp hs
      have hq2 : q ∈ leftovers (slotPool n r e.2.1) e.2.2 counters := by
        rw [hlo]; exact hq
      obtain ⟨k, rfl⟩ := mem_master_form
        (pool_mem_master (keys_sublist_all e he) (leftovers_subset_pool hq2))
      exact id_str_no_comma k c hc

/-- Witness for C6 at a concrete cell content. -/
theorem exact_token_search_witness :
    ("V-" ++ Nat.repr 1) ∈ pySplitCS (names_str [mkVolunteer 1, mkVolunteer 10])
      ↔ ("V-" ++ Nat.repr 1) ∈ [mkVolunteer 1, mkVolunteer 10].map Volunteer.id_str :=
  (exact_token_search 8 1).1 [mkVolunteer 1, mkVolunteer 10] 1
    (by
      intro p hp
      simp only [List.mem_cons, List.not_mem_nil, or_false] at hp
      rcases hp with rfl | rfl
      · exact ⟨1, rfl⟩
      · exact ⟨10, rfl⟩)

/-! ## Duty count per volunteer (C10) -/

theorem exists_unique_cohort (n : Nat) {v : Volunteer} (hv : v ∈ master_list n) :
    ∃ i0, i0 < 4 ∧ v ∈ (groups n).getD i0 [] ∧
      ∀ i, i < 4 → v ∈ (groups n).getD i [] → i = i0 := by
  have hv2 := hv
  rw [master_list_eq] at hv2
  obtain ⟨j, hj, rfl⟩ := List.mem_map.mp hv2
  rw [List.mem_range'_1] at hj
  have hc4 := chunk_covers n
  have hcpos : 1 ≤ chunkSize n := by unfold chunkSize; omega
  refine ⟨if j ≤ chunkSize n then 0 else if j ≤ chunkSize n * 2 then 1
          else if j ≤ chunkSize n * 3 then 2 else 3, ?_, ?_, ?_⟩
  · split_ifs <;> omega
  · split_ifs with h1 h2 h3 <;>
      (rw [mem_cohort_iff n _ (by omega)]; refine ⟨rfl, ?_, ?_⟩ <;>
        (simp only [id_num_mkVolunteer]; omega))
  · intro i hi4 hmem
    rw [mem_cohort_iff n i hi4] at hmem
    obtain ⟨-, hlo, hhi⟩ := hmem
    simp only [id_num_mkVolunteer] at hlo hhi
    interval_cases i <;> split_ifs <;> omega

theorem cohort_key_eq (n : Nat) (r : Nat) (hr : r < 4) :
    ∀ ki, ki < 4 →
      generate_schedule n (r : Int) (['1', '2', '3', '4'].getD ki ' ')
        = (groups n).getD ((ki + r) % 4) [] := by
  intro ki hki
  interval_cases r <;> interval_cases ki <;> rfl

theorem mem_slotPool_iff (n : Nat) (r : Int) (ks : List Char) (v : Volunteer) :
    v ∈ slotPool n r ks ↔ ∃ k ∈ ks, v ∈ generate_schedule n r k := by
  rw [(slotPool_perm n r ks).mem_iff, List.mem_flatMap]

theorem unique_key (n : Nat) (r : Nat) (hr : r < 4) {v : Volunteer}
    (hv : v ∈ master_list n) :
    ∃ κ ∈ ['1', '2', '3', '4'], v ∈ generate_schedule n (r : Int) κ ∧
      ∀ k ∈ ['1', '2', '3', '4'], v ∈ generate_schedule n (r : Int) k → k = κ := by
  obtain ⟨i0, hi0, hmem, huniq⟩ := exists_unique_cohort n hv
  have hki4 : (i0 + 4 - r) % 4 < 4 := by omega
  have hmod : ((i0 + 4 - r) % 4 + r) % 4 = i0 := by omega
  refine ⟨['1', '2', '3', '4'].getD ((i0 + 4 - r) % 4) ' ', ?_, ?_, ?_⟩
  · interval_cases h : (i0 + 4 - r) % 4 <;> decide
  · rw [cohort_key_eq n r hr _ hki4, hmod]; exact hmem
  · intro k hk hvk
    fin_cases hk
    · have h0 := huniq ((0 + r) % 4) (by omega)
        (by rw [← cohort_key_eq n r hr 0 (by omega)]; exact hvk)
      have he : (i0 + 4 - r) % 4 = 0 := by omega
      rw [he]
      rfl
    · have h0 := huniq ((1 + r) % 4) (by omega)
        (by rw [← cohort_key_eq n r hr 1 (by omega)]; exact hvk)
      have he : (i0 + 4 - r) % 4 = 1 := by omega
      rw [he]
      rfl
    · have h0 := huniq ((2 + r) % 4) (by omega)
        (by rw [← cohort_key_eq n r hr 2 (by omega)]; exact hvk)
      have he : (i0 + 4 - r) % 4 = 2 := by omega
      rw [he]
      rfl
    · have h0 := huniq ((3 + r) % 4) (by omega)
        (by rw [← cohort_key_eq n r hr 3 (by omega)]; exact hvk)
      have he : (i0 + 4 - r) % 4 = 3 := by omega
      rw [he]
      rfl

/-- C10: for every volunteer count N >= 1 and every rotation index r in
    [0,4), each slot key appears in exactly 4 of the 12 pattern entries,
    and each volunteer is on duty (a member of the merged shift pool, so
    either assigned to a counter or to reserves) in exactly 4 of the 12
    time slots of the day. -/
theorem on_duty_exactly_four (n : Nat) (hn : 1 ≤ n) (r : Nat) (hr : r < 4) :
    (∀ k ∈ ['1', '2', '3', '4'],
       schedule_pattern.countP (fun e => decide (k ∈ e.2.1)) = 4) ∧
    ∀ v ∈ master_list n,
      schedule_pattern.countP (fun e => decide (v ∈ slotPool n (r : Int) e.2.1)) = 4 := by
  refine ⟨by decide, ?_⟩
  intro v hv
  obtain ⟨κ, hκmem, hκin, hκuniq⟩ := unique_key n r hr hv
  have hcong : ∀ e ∈ schedule_pattern,
      (decide (v ∈ slotPool n (r : Int) e.2.1) = true)
        ↔ (decide (κ ∈ e.2.1) = true) := by
    intro e he
    simp only [decide_eq_true_eq]
    rw [mem_slotPool_iff]
    constructor
    · rintro ⟨k, hk, hvk⟩
      have hk4 : k ∈ ['1', '2', '3', '4'] := (keys_sublist_all e he).subset hk
      rw [← hκuniq k hk4 hvk]
      exact hk
    · intro hκ
      exact ⟨κ, hκ, hκin⟩
  rw [List.countP_congr hcong]
  fin_cases hκmem <;> decide

/-- Witness for C10 at N = 8, rotation 1, volunteer V-3. -/
theorem on_duty_exactly_four_witness :
    schedule_pattern.countP
        (fun e => decide (mkVolunteer 3 ∈ slotPool 8 ((1 : Nat) : Int) e.2.1)) = 4 :=
  (on_duty_exactly_four 8 (by decide) 1 (by decide)).2 (mkVolunteer 3) (by decide)

end VolunteerScheduler
